import Mathlib

/-!
Shallow embedding of the HL interpreter (`HLInt.py`).

The interpreter validates source text of the mini-language HL.  The embedding
models, faithfully to the Python source:

* the character classes used by the regular expressions (`\s`, `[a-zA-Z]`,
  `\w`, `[0-9]`);
* the load phase (`_read_and_clean_source`): strip each line, drop blanks;
* the four statement-shape matchers (`declaration`, `assignment`, `output`,
  `if_statement`), implemented as deterministic parsers with the same
  backtracking behaviour as the Python regexes;
* the expression-variable checker (`_check_expression_variables`), whose
  identifier extraction is `[a-zA-Z][a-zA-Z0-9]*` (no underscore);
* the restricted body-statement check (`_is_valid_statement`);
* the main validation loop (`_has_valid_syntax`), including its re-read of the
  raw (unfiltered) file lines for the indentation check, indexed by the
  filtered-sequence cursor exactly as in the source;
* the tokenizer's symbol scan (`_create_res_sym_file`), where the symbol
  alternation is tried in the fixed list order.
-/

/-- Python `\s` on the ASCII range: space, tab, newline, carriage return,
vertical tab, form feed. -/
def pySpace (c : Char) : Bool :=
  c = ' ' || c = '\t' || c = '\n' || c = '\r' || c = '\x0b' || c = '\x0c'

/-- Regex class `[a-zA-Z]`. -/
def letterChar (c : Char) : Bool :=
  ('a' ≤ c && c ≤ 'z') || ('A' ≤ c && c ≤ 'Z')

/-- Regex class `[0-9]` / `\d`. -/
def digitChar (c : Char) : Bool :=
  '0' ≤ c && c ≤ '9'

/-- Regex class `[a-zA-Z0-9]`. -/
def alnumChar (c : Char) : Bool :=
  letterChar c || digitChar c

/-- Regex class `\w` = `[a-zA-Z0-9_]`. -/
def wordChar (c : Char) : Bool :=
  alnumChar c || c = '_'

/-- A sequence of source lines, each a list of characters. -/
abbrev Lines := List (List Char)

/-- The interpreter's `symbol_table`: variable name to declared type.
Entries are only ever added at the front, guarded by the redeclaration
check, so lookup agrees with the Python `dict`. -/
abbrev SymTab := List (List Char × List Char)

/-- Skip a (greedy) run of `\s*`. -/
def dropWs (cs : List Char) : List Char := cs.dropWhile pySpace

/-- Python `str.strip()`: remove leading and trailing whitespace. -/
def stripList (cs : List Char) : List Char :=
  ((cs.dropWhile pySpace).reverse.dropWhile pySpace).reverse

/-- `_read_and_clean_source`: strip every raw line and drop the ones that are
empty afterwards.  The result is `self.source_lines`. -/
def filteredOf (raw : Lines) : Lines :=
  (raw.map stripList).filter (fun l => !l.isEmpty)

/-- Keyword `integer`. -/
def kwInteger : List Char := ['i', 'n', 't', 'e', 'g', 'e', 'r']

/-- Keyword `double`. -/
def kwDouble : List Char := ['d', 'o', 'u', 'b', 'l', 'e']

/-- Keyword `output`. -/
def kwOutput : List Char := ['o', 'u', 't', 'p', 'u', 't']

/-- Keyword `If`. -/
def kwIf : List Char := ['I', 'f']

/-- `self.reserved_words = {'integer', 'double', 'output', 'If'}`. -/
def reservedWords : List (List Char) := [kwInteger, kwDouble, kwOutput, kwIf]

/-- `self.symbols`, in the source's order (longer tokens before their
single-character prefixes). -/
def symbols : List (List Char) :=
  [['<', '<'], [':', '='], ['=', '='], ['!', '='],
   ['>'], ['<'], [':'], [';'], ['+'], ['-'], ['='], ['('], [')'], ['"']]

/-- Matches the regex tail `\s*;\s*$`: optional whitespace, one semicolon,
optional whitespace, end of line. -/
def semiEnd (cs : List Char) : Bool :=
  match dropWs cs with
  | ';' :: r => (dropWs r).isEmpty
  | _ => false

/-- Declaration shape `^\s*([a-zA-Z]\w*)\s*:\s*(integer|double)\s*;\s*$`.
Returns the captured name and type.  The alternation tries `integer` first,
then `double`, each followed by the `\s*;\s*$` tail, as the regex engine
does. -/
def matchDecl (line : List Char) : Option (List Char × List Char) :=
  match dropWs line with
  | c :: rest =>
    if letterChar c then
      let name := c :: rest.takeWhile wordChar
      match dropWs (rest.dropWhile wordChar) with
      | ':' :: cs2 =>
        let cs3 := dropWs cs2
        if kwInteger.isPrefixOf cs3 && semiEnd (cs3.drop 7) then some (name, kwInteger)
        else if kwDouble.isPrefixOf cs3 && semiEnd (cs3.drop 6) then some (name, kwDouble)
        else none
      | _ => none
    else none
  | [] => none

/-- Assignment shape `^\s*([a-zA-Z]\w*)\s*:=\s*(-?\d+(\.\d{1,2})?)\s*;\s*$`.
Returns the captured name and literal value.  The optional fraction group is
greedy (`\d{1,2}` tries two digits, then one, then the group is skipped),
each alternative followed by the `\s*;\s*$` tail. -/
def matchAssign (line : List Char) : Option (List Char × List Char) :=
  match dropWs line with
  | c :: rest =>
    if letterChar c then
      let name := c :: rest.takeWhile wordChar
      match dropWs (rest.dropWhile wordChar) with
      | ':' :: '=' :: cs2 =>
        let cs3 := dropWs cs2
        let sign : List Char := match cs3 with
          | '-' :: _ => ['-']
          | _ => []
        let cs4 := match cs3 with
          | '-' :: r => r
          | _ => cs3
        let digits := cs4.takeWhile digitChar
        let afterInt := cs4.dropWhile digitChar
        if digits.isEmpty then none
        else
          match afterInt with
          | '.' :: r =>
            let fd := r.takeWhile digitChar
            if 2 ≤ fd.length && semiEnd (r.drop 2) then
              some (name, sign ++ digits ++ '.' :: fd.take 2)
            else if 1 ≤ fd.length && semiEnd (r.drop 1) then
              some (name, sign ++ digits ++ '.' :: fd.take 1)
            else if semiEnd afterInt then some (name, sign ++ digits)
            else none
          | _ => if semiEnd afterInt then some (name, sign ++ digits) else none
      | _ => none
    else none
  | [] => none

/-- For a greedy `(.*)` followed by `close` and `\s*$`: the group is all text
before the last occurrence of `close` that is followed only by whitespace.
Returns `none` when no such occurrence exists. -/
def lastSplitOn (close : Char) (cs : List Char) : Option (List Char) :=
  match cs.reverse.dropWhile pySpace with
  | d :: r => if d = close then some r.reverse else none
  | [] => none

/-- Output shape `^\s*output\s*<<\s*(.*)\s*;\s*$`.  Returns the captured
content (group 1, before the caller's `strip()`). -/
def matchOutput (line : List Char) : Option (List Char) :=
  let cs := dropWs line
  if kwOutput.isPrefixOf cs then
    match dropWs (cs.drop 6) with
    | '<' :: '<' :: cs2 => lastSplitOn ';' (dropWs cs2)
    | _ => none
  else none

/-- Conditional shape `^\s*If\s*\((.*)\)\s*$`.  Returns the captured
condition. -/
def matchIf (line : List Char) : Option (List Char) :=
  let cs := dropWs line
  if kwIf.isPrefixOf cs then
    match dropWs (cs.drop 2) with
    | '(' :: cs2 => lastSplitOn ')' cs2
    | _ => none
  else none

/-- Worker for `re.findall(r'[a-zA-Z][a-zA-Z0-9]*', ...)`: scans the text,
accumulating the current identifier run (in reverse) when inside one. -/
def findIdentsGo : Option (List Char) → List Char → List (List Char)
  | some run, [] => [run.reverse]
  | none, [] => []
  | some run, c :: cs =>
    if alnumChar c then findIdentsGo (some (c :: run)) cs
    else run.reverse :: findIdentsGo none cs
  | none, c :: cs =>
    if letterChar c then findIdentsGo (some [c]) cs else findIdentsGo none cs

/-- `re.findall(r'[a-zA-Z][a-zA-Z0-9]*', expr)`: all maximal runs of a letter
followed by letters/digits.  Note: no underscore in the class. -/
def findIdents (cs : List Char) : List (List Char) := findIdentsGo none cs

/-- `_check_expression_variables`: every identifier-shaped token that is not a
reserved word must be a key of the symbol table. -/
def checkExprVars (sym : SymTab) (expr : List Char) : Bool :=
  (findIdents expr).all (fun v => reservedWords.contains v || (List.lookup v sym).isSome)

/-- `content.startswith('"') and content.endswith('"')`. -/
def isQuoted (cs : List Char) : Bool :=
  (cs.head? == some '"') && (cs.getLast? == some '"')

/-- The output-statement content check shared by the main loop and the body
check: a quoted literal is always accepted, otherwise the content's variables
are checked. -/
def outputOk (sym : SymTab) (content : List Char) : Bool :=
  let c := stripList content
  if isQuoted c then true else checkExprVars sym c

/-- Python `str.isdigit()` on the ASCII range: non-empty and all digits. -/
def pyIsDigits (cs : List Char) : Bool := !cs.isEmpty && cs.all digitChar

/-- The assignment type-compatibility check (`_has_valid_syntax`, branch 2):
`is_int = '.' not in value`; fails when the declared type is `integer` and the
literal is not integer-classified, or the declared type is `double`, the
literal is integer-classified, and `value.isdigit()` is false. -/
def typeOk (ty : List Char) (value : List Char) : Bool :=
  let isInt := !(value.contains '.')
  !((ty == kwInteger && !isInt) || (ty == kwDouble && isInt && !(pyIsDigits value)))

/-- `next_line_full.startswith(' ') or next_line_full.startswith('\t')`. -/
def indentOk (rawLine : List Char) : Bool :=
  match rawLine with
  | c :: _ => c = ' ' || c = '\t'
  | [] => false

/-- `_is_valid_statement`: a conditional body must be an assignment to a
declared variable or an output statement. -/
def isValidStmt (sym : SymTab) (line : List Char) : Bool :=
  match matchAssign line with
  | some (name, _) => (List.lookup name sym).isSome
  | none =>
    match matchOutput line with
    | some content => outputOk sym content
    | none => false

/-- The validation loop of `_has_valid_syntax`.  `raw` is the raw (unfiltered)
file-line list, re-read in the conditional branch; `i` is the value the cursor
`line_index` had when the current first line of `rest` was fetched (so the
body of a conditional at `rest.head` is raw-indexed at `i + 1`, exactly as
`readlines()[line_index]` in the source); `rest` is the still-unprocessed
suffix of the filtered line sequence.  Returns the verdict together with the
symbol table at the end of the run. -/
def validLoop (raw : Lines) (sym : SymTab) (i : Nat) (rest : Lines) : Bool × SymTab :=
  match rest with
  | [] => (true, sym)
  | line :: rest =>
    match matchDecl line with
    | some (name, ty) =>
      if (List.lookup name sym).isSome then (false, sym)
      else validLoop raw ((name, ty) :: sym) (i + 1) rest
    | none =>
      match matchAssign line with
      | some (name, value) =>
        match List.lookup name sym with
        | none => (false, sym)
        | some ty =>
          if typeOk ty value then validLoop raw sym (i + 1) rest else (false, sym)
      | none =>
        match matchOutput line with
        | some content =>
          if outputOk sym content then validLoop raw sym (i + 1) rest else (false, sym)
        | none =>
          match matchIf line with
          | some cond =>
            if checkExprVars sym cond then
              match rest with
              | [] => (false, sym)
              | body :: rest2 =>
                if indentOk (raw.getD (i + 1) []) then
                  if isValidStmt sym body then validLoop raw sym (i + 2) rest2
                  else (false, sym)
                else (false, sym)
            else (false, sym)
          | none => (false, sym)

/-- The whole validator on a raw file: clean the lines, then run the loop with
an empty symbol table and cursor 0.  `true` is the `NO ERROR(S) FOUND`
verdict. -/
def hlValid (raw : Lines) : Bool := (validLoop raw [] 0 (filteredOf raw)).1

/-- The validation loop instrumented with fuel: each loop iteration (each
processed leading line) consumes one unit.  `none` means the iteration budget
was exhausted before the loop finished. -/
def validFuel (raw : Lines) (fuel : Nat) (sym : SymTab) (i : Nat) (rest : Lines) :
    Option (Bool × SymTab) :=
  match rest with
  | [] => some (true, sym)
  | line :: rest =>
    match fuel with
    | 0 => none
    | fuel + 1 =>
    match matchDecl line with
    | some (name, ty) =>
      if (List.lookup name sym).isSome then some (false, sym)
      else validFuel raw fuel ((name, ty) :: sym) (i + 1) rest
    | none =>
      match matchAssign line with
      | some (name, value) =>
        match List.lookup name sym with
        | none => some (false, sym)
        | some ty =>
          if typeOk ty value then validFuel raw fuel sym (i + 1) rest else some (false, sym)
      | none =>
        match matchOutput line with
        | some content =>
          if outputOk sym content then validFuel raw fuel sym (i + 1) rest
          else some (false, sym)
        | none =>
          match matchIf line with
          | some cond =>
            if checkExprVars sym cond then
              match rest with
              | [] => some (false, sym)
              | body :: rest2 =>
                if indentOk (raw.getD (i + 1) []) then
                  if isValidStmt sym body then validFuel raw fuel sym (i + 2) rest2
                  else some (false, sym)
                else some (false, sym)
            else some (false, sym)
          | none => some (false, sym)

/-- The tokenizer's symbol alternation: `re.finditer` tries the symbols in
list order at the current position; the first one that is a prefix of the
remaining text matches. -/
def matchSym (syms : List (List Char)) (cs : List Char) : Option (List Char) :=
  syms.find? (fun s => s.isPrefixOf cs)

/-- The tokenizer's symbol scan (`_create_res_sym_file`): at each position try
the symbol alternation; on a match record the token and resume after it,
otherwise advance one character. -/
def scanSym : List Char → List (List Char)
  | [] => []
  | c :: cs =>
    match matchSym symbols (c :: cs) with
    | some s => s :: scanSym (cs.drop (s.length - 1))
    | none => scanSym cs
termination_by cs => cs.length
decreasing_by
  · simp [List.length_drop]
    omega
  · simp

/-- A bare identifier in the shape accepted by the expression-variable
checker's extraction class: a letter followed by letters/digits. -/
def identShaped : List Char → Bool
  | [] => false
  | c :: rest => letterChar c && rest.all alnumChar

/-! ### Helper lemmas -/

/-- One-step unfolding of `validLoop` on a non-empty line sequence. -/
theorem validLoop_cons (raw : Lines) (sym : SymTab) (i : Nat) (line : List Char)
    (rest : Lines) :
    validLoop raw sym i (line :: rest) =
      match matchDecl line with
      | some (name, ty) =>
        if (List.lookup name sym).isSome then (false, sym)
        else validLoop raw ((name, ty) :: sym) (i + 1) rest
      | none =>
        match matchAssign line with
        | some (name, value) =>
          match List.lookup name sym with
          | none => (false, sym)
          | some ty =>
            if typeOk ty value then validLoop raw sym (i + 1) rest else (false, sym)
        | none =>
          match matchOutput line with
          | some content =>
            if outputOk sym content then validLoop raw sym (i + 1) rest else (false, sym)
          | none =>
            match matchIf line with
            | some cond =>
              if checkExprVars sym cond then
                match rest with
                | [] => (false, sym)
                | body :: rest2 =>
                  if indentOk (raw.getD (i + 1) []) then
                    if isValidStmt sym body then validLoop raw sym (i + 2) rest2
                    else (false, sym)
                  else (false, sym)
              else (false, sym)
            | none => (false, sym) := by
  cases rest <;> simp [validLoop]

/-- One-step unfolding of `validFuel` on a non-empty line sequence with
positive fuel. -/
theorem validFuel_cons (raw : Lines) (fuel : Nat) (sym : SymTab) (i : Nat)
    (line : List Char) (rest : Lines) :
    validFuel raw (fuel + 1) sym i (line :: rest) =
      match matchDecl line with
      | some (name, ty) =>
        if (List.lookup name sym).isSome then some (false, sym)
        else validFuel raw fuel ((name, ty) :: sym) (i + 1) rest
      | none =>
        match matchAssign line with
        | some (name, value) =>
          match List.lookup name sym with
          | none => some (false, sym)
          | some ty =>
            if typeOk ty value then validFuel raw fuel sym (i + 1) rest
            else some (false, sym)
        | none =>
          match matchOutput line with
          | some content =>
            if outputOk sym content then validFuel raw fuel sym (i + 1) rest
            else some (false, sym)
          | none =>
            match matchIf line with
            | some cond =>
              if checkExprVars sym cond then
                match rest with
                | [] => some (false, sym)
                | body :: rest2 =>
                  if indentOk (raw.getD (i + 1) []) then
                    if isValidStmt sym body then validFuel raw fuel sym (i + 2) rest2
                    else some (false, sym)
                  else some (false, sym)
              else some (false, sym)
            | none => some (false, sym) := by
  cases rest <;> simp [validFuel]

theorem letterChar_alnum {c : Char} (h : letterChar c = true) : alnumChar c = true := by
  simp [alnumChar, h]

theorem alnumChar_not_space {c : Char} (h : alnumChar c = true) : pySpace c = false := by
  cases hp : pySpace c
  · rfl
  · exfalso
    simp only [pySpace, Bool.or_eq_true, decide_eq_true_eq] at hp
    rcases hp with ((((rfl | rfl) | rfl) | rfl) | rfl) | rfl <;> exact absurd h (by decide)

theorem dropWhile_pySpace_of_all {l : List Char} (h : ∀ x ∈ l, pySpace x = false) :
    l.dropWhile pySpace = l := by
  cases l with
  | nil => rfl
  | cons a l => simp [List.dropWhile_cons, h a (List.mem_cons_self a l)]

theorem stripList_of_all {l : List Char} (h : ∀ x ∈ l, pySpace x = false) :
    stripList l = l := by
  unfold stripList
  rw [dropWhile_pySpace_of_all h,
    dropWhile_pySpace_of_all (fun x hx => h x (List.mem_reverse.mp hx)),
    List.reverse_reverse]

theorem identShaped_all_alnum {name : List Char} (h : identShaped name = true) :
    ∀ x ∈ name, alnumChar x = true := by
  cases name with
  | nil => exact absurd h (by simp [identShaped])
  | cons c rest =>
    simp only [identShaped, Bool.and_eq_true, List.all_eq_true] at h
    intro x hx
    rcases List.mem_cons.mp hx with rfl | hx
    · exact letterChar_alnum h.1
    · exact h.2 x hx

theorem findIdentsGo_run (run : List Char) {cs : List Char}
    (h : ∀ x ∈ cs, alnumChar x = true) :
    findIdentsGo (some run) cs = [run.reverse ++ cs] := by
  induction cs generalizing run with
  | nil => simp [findIdentsGo]
  | cons c cs ih =>
    rw [findIdentsGo, h c (List.mem_cons_self c cs)]
    simp only [if_true]
    rw [ih (c :: run) (fun x hx => h x (List.mem_cons_of_mem c hx))]
    simp

theorem findIdents_ident {name : List Char} (h : identShaped name = true) :
    findIdents name = [name] := by
  cases name with
  | nil => exact absurd h (by simp [identShaped])
  | cons c rest =>
    simp only [identShaped, Bool.and_eq_true, List.all_eq_true] at h
    rw [findIdents, findIdentsGo, h.1]
    simp only [if_true]
    rw [findIdentsGo_run [c] h.2]
    simp

theorem matchSym_longest (cs : List Char) :
    ∀ (L : List (List Char)),
      L.Pairwise (fun a b => a.isPrefixOf b = true → a = b) →
      ∀ sym ∈ L, sym.isPrefixOf cs = true →
        ∃ s, L.find? (fun t => t.isPrefixOf cs) = some s ∧ s.isPrefixOf cs = true ∧
          sym.length ≤ s.length := by
  intro L
  induction L with
  | nil => intro _ sym hmem; exact absurd hmem (List.not_mem_nil sym)
  | cons a L ih =>
    intro hpair sym hmem hpre
    rw [List.pairwise_cons] at hpair
    by_cases ha : a.isPrefixOf cs = true
    · refine ⟨a, List.find?_cons_of_pos _ ha, ha, ?_⟩
      rcases List.mem_cons.mp hmem with rfl | hmem
      · exact Nat.le_refl _
      · have h1 : sym <+: cs := List.isPrefixOf_iff_prefix.mp hpre
        have h2 : a <+: cs := List.isPrefixOf_iff_prefix.mp ha
        rcases List.prefix_or_prefix_of_prefix h1 h2 with hp | hp
        · exact hp.length_le
        · rw [hpair.1 sym hmem (List.isPrefixOf_iff_prefix.mpr hp)]
    · rcases List.mem_cons.mp hmem with rfl | hmem
      · exact absurd hpre ha
      · obtain ⟨s, hf, hs, hl⟩ := ih hpair.2 sym hmem hpre
        refine ⟨s, ?_, hs, hl⟩
        have ha' : List.isPrefixOf a cs = false := by
          cases hb : List.isPrefixOf a cs
          · rfl
          · exact absurd hb ha
        simp only [List.find?, ha']
        exact hf

theorem validFuel_complete :
    ∀ (fuel : Nat) (rest raw : Lines) (sym : SymTab) (i : Nat),
      rest.length ≤ fuel →
      validFuel raw fuel sym i rest = some (validLoop raw sym i rest) := by
  intro fuel
  induction fuel with
  | zero =>
    intro rest raw sym i h
    have hr : rest = [] := List.eq_nil_of_length_eq_zero (Nat.le_zero.mp h)
    subst hr
    rfl
  | succ n ih =>
    intro rest raw sym i h
    cases rest with
    | nil => rfl
    | cons line rest =>
      have h' : rest.length ≤ n := by
        simp only [List.length_cons] at h
        omega
      rw [validFuel_cons, validLoop_cons]
      cases hd : matchDecl line with
      | some p =>
        obtain ⟨name, ty⟩ := p
        cases hq : (List.lookup name sym).isSome with
        | true => simp [hq]
        | false => simpa [hq] using ih rest raw ((name, ty) :: sym) (i + 1) h'
      | none =>
        cases hasg : matchAssign line with
        | some p =>
          obtain ⟨name, value⟩ := p
          cases hq : List.lookup name sym with
          | none => simp [hq]
          | some ty =>
            cases ht : typeOk ty value with
            | true => simpa [hq, ht] using ih rest raw sym (i + 1) h'
            | false => simp [hq, ht]
        | none =>
          cases ho : matchOutput line with
          | some content =>
            cases hok : outputOk sym content with
            | true => simpa [hok] using ih rest raw sym (i + 1) h'
            | false => simp [hok]
          | none =>
            cases hi : matchIf line with
            | some cond =>
              cases hc : checkExprVars sym cond with
              | false => simp [hc]
              | true =>
                cases rest with
                | nil => simp [hc]
                | cons body rest2 =>
                  have h2 : rest2.length ≤ n := by
                    simp only [List.length_cons] at h
                    omega
                  cases hind : indentOk (List.getD raw (i + 1) []) with
                  | false => simp [hc, hind]
                  | true =>
                    cases hst : isValidStmt sym body with
                    | true => simpa [hc, hind, hst] using ih rest2 raw sym (i + 2) h2
                    | false => simp [hc, hind, hst]
            | none => simp

theorem validLoop_table_ext :
    ∀ (n : Nat) (rest raw : Lines) (sym : SymTab) (i : Nat),
      rest.length ≤ n →
      (∃ added, (validLoop raw sym i rest).2 = added ++ sym) ∧
      (∀ name v, List.lookup name sym = some v →
        List.lookup name (validLoop raw sym i rest).2 = some v) := by
  intro n
  induction n with
  | zero =>
    intro rest raw sym i h
    have hr : rest = [] := List.eq_nil_of_length_eq_zero (Nat.le_zero.mp h)
    subst hr
    exact ⟨⟨[], rfl⟩, fun _ _ hv => hv⟩
  | succ n ih =>
    intro rest raw sym i h
    cases rest with
    | nil => exact ⟨⟨[], rfl⟩, fun _ _ hv => hv⟩
    | cons line rest =>
      have h' : rest.length ≤ n := by
        simp only [List.length_cons] at h
        omega
      cases hd : matchDecl line with
      | some p =>
        obtain ⟨name, ty⟩ := p
        cases hq : (List.lookup name sym).isSome with
        | true =>
          have hred : validLoop raw sym i (line :: rest) = (false, sym) := by
            rw [validLoop_cons]
            simp [hd, hq]
          rw [hred]
          exact ⟨⟨[], rfl⟩, fun _ _ hv => hv⟩
        | false =>
          have hred : validLoop raw sym i (line :: rest) =
              validLoop raw ((name, ty) :: sym) (i + 1) rest := by
            rw [validLoop_cons]
            simp [hd, hq]
          rw [hred]
          obtain ⟨⟨added, hadd⟩, hpres⟩ := ih rest raw ((name, ty) :: sym) (i + 1) h'
          constructor
          · refine ⟨added ++ [(name, ty)], ?_⟩
            rw [hadd]
            simp
          · intro name' v hv
            have hne : (name' == name) = false := by
              cases hbe : name' == name
              · rfl
              · exfalso
                have heq : name' = name := eq_of_beq hbe
                rw [heq] at hv
                rw [hv] at hq
                simp at hq
            have hv' : List.lookup name' ((name, ty) :: sym) = some v := by
              simp only [List.lookup, hne]
              exact hv
            exact hpres name' v hv'
      | none =>
        cases hasg : matchAssign line with
        | some p =>
          obtain ⟨name, value⟩ := p
          cases hq : List.lookup name sym with
          | none =>
            have hred : validLoop raw sym i (line :: rest) = (false, sym) := by
              rw [validLoop_cons]
              simp [hd, hasg, hq]
            rw [hred]
            exact ⟨⟨[], rfl⟩, fun _ _ hv => hv⟩
          | some ty =>
            cases ht : typeOk ty value with
            | true =>
              have hred : validLoop raw sym i (line :: rest) =
                  validLoop raw sym (i + 1) rest := by
                rw [validLoop_cons]
                simp [hd, hasg, hq, ht]
              rw [hred]
              exact ih rest raw sym (i + 1) h'
            | false =>
              have hred : validLoop raw sym i (line :: rest) = (false, sym) := by
                rw [validLoop_cons]
                simp [hd, hasg, hq, ht]
              rw [hred]
              exact ⟨⟨[], rfl⟩, fun _ _ hv => hv⟩
        | none =>
          cases ho : matchOutput line with
          | some content =>
            cases hok : outputOk sym content with
            | true =>
              have hred : validLoop raw sym i (line :: rest) =
                  validLoop raw sym (i + 1) rest := by
                rw [validLoop_cons]
                simp [hd, hasg, ho, hok]
              rw [hred]
              exact ih rest raw sym (i + 1) h'
            | false =>
              have hred : validLoop raw sym i (line :: rest) = (false, sym) := by
                rw [validLoop_cons]
                simp [hd, hasg, ho, hok]
              rw [hred]
              exact ⟨⟨[], rfl⟩, fun _ _ hv => hv⟩
          | none =>
            cases hi : matchIf line with
            | some cond =>
              cases hc : checkExprVars sym cond with
              | false =>
                have hred : validLoop raw sym i (line :: rest) = (false, sym) := by
                  rw [validLoop_cons]
                  simp [hd, hasg, ho, hi, hc]
                rw [hred]
                exact ⟨⟨[], rfl⟩, fun _ _ hv => hv⟩
              | true =>
                cases rest with
                | nil =>
                  have hred : validLoop raw sym i [line] = (false, sym) := by
                    rw [validLoop_cons]
                    simp [hd, hasg, ho, hi, hc]
                  rw [hred]
                  exact ⟨⟨[], rfl⟩, fun _ _ hv => hv⟩
                | cons body rest2 =>
                  have h2 : rest2.length ≤ n := by
                    simp only [List.length_cons] at h
                    omega
                  cases hind : indentOk (raw[i + 1]?.getD []) with
                  | false =>
                    have hred : validLoop raw sym i (line :: body :: rest2) =
                        (false, sym) := by
                      rw [validLoop_cons]
                      simp [hd, hasg, ho, hi, hc, hind]
                    rw [hred]
                    exact ⟨⟨[], rfl⟩, fun _ _ hv => hv⟩
                  | true =>
                    cases hst : isValidStmt sym body with
                    | true =>
                      have hred : validLoop raw sym i (line :: body :: rest2) =
                          validLoop raw sym (i + 2) rest2 := by
                        rw [validLoop_cons]
                        simp [hd, hasg, ho, hi, hc, hind, hst]
                      rw [hred]
                      exact ih rest2 raw sym (i + 2) h2
                    | false =>
                      have hred : validLoop raw sym i (line :: body :: rest2) =
                          (false, sym) := by
                        rw [validLoop_cons]
                        simp [hd, hasg, ho, hi, hc, hind, hst]
                      rw [hred]
                      exact ⟨⟨[], rfl⟩, fun _ _ hv => hv⟩
            | none =>
              have hred : validLoop raw sym i (line :: rest) = (false, sym) := by
                rw [validLoop_cons]
                simp [hd, hasg, ho, hi]
              rw [hred]
              exact ⟨⟨[], rfl⟩, fun _ _ hv => hv⟩

/-! ### Claims -/

/-- C1: the claim says the indentation check examines the original, untrimmed
line immediately following the conditional in the raw file.  The code instead
indexes the raw `readlines()` list with the filtered-sequence cursor, so when
a blank line was dropped earlier the wrong raw line is examined: with a blank
first line the raw line at the cursor index is the conditional itself
(unindented) and validation fails, although the raw line after the
conditional is properly indented; without the blank line the same program
validates. -/
theorem C1_indentation_raw_reindex :
    hlValid [("").toList, ("x:integer;").toList, ("If(x<5)").toList,
      (" x:=5;").toList] = false ∧
    hlValid [("x:integer;").toList, ("If(x<5)").toList, (" x:=5;").toList] = true := by
  decide

/-- C2 counterexample: the claim says `y := -3 ;` after `y : double ;` is
accepted; the code rejects it, because `"-3".isdigit()` is false (the sign is
part of the captured value). -/
theorem C2_counterexample :
    hlValid [("y : double ;").toList, ("y := -3 ;").toList] = false := by
  decide

/-- C2 (amended): for a variable declared as double, a signed integer literal
with no decimal point is rejected (TypeMismatch), because the whole captured
literal including its sign must be digits-only; an unsigned integer literal
and any literal with a decimal point (even negative) are accepted. -/
theorem C2_double_signed_integer_rejected :
    hlValid [("y : double ;").toList, ("y := -3 ;").toList] = false ∧
    hlValid [("y : double ;").toList, ("y := 3 ;").toList] = true ∧
    hlValid [("y : double ;").toList, ("y := -3.5 ;").toList] = true ∧
    typeOk kwDouble ['-', '3'] = false ∧
    typeOk kwDouble ['3'] = true := by
  decide

/-- C3: the tokenizer's symbol alternation is tried in list order, so at any
scan position where both `:` and `:=` could match, `:=` is the recorded token
and the scan resumes after both characters (no bare `:` for that occurrence);
in general the first symbol the alternation finds is at least as long as any
symbol of the list matching at that position (leftmost-longest within the
fixed symbol list). -/
theorem C3_longest_symbol_match :
    (∀ rest : List Char, matchSym symbols (':' :: '=' :: rest) = some [':', '=']) ∧
    (∀ rest : List Char, scanSym (':' :: '=' :: rest) = [':', '='] :: scanSym rest) ∧
    (∀ (cs sym : List Char), sym ∈ symbols → sym.isPrefixOf cs = true →
      ∃ s, matchSym symbols cs = some s ∧ s.isPrefixOf cs = true ∧
        sym.length ≤ s.length) := by
  have hfirst : ∀ rest : List Char,
      matchSym symbols (':' :: '=' :: rest) = some [':', '='] := by
    intro rest
    simp [matchSym, symbols, List.find?, List.isPrefixOf]
  refine ⟨hfirst, ?_, ?_⟩
  · intro rest
    rw [scanSym, hfirst rest]
    simp
  · intro cs sym hmem hpre
    exact matchSym_longest cs symbols (by decide) sym hmem hpre

/-- C3 witness: concrete instances of the three conjuncts. -/
theorem C3_witness :
    matchSym symbols [':', '='] = some [':', '='] ∧
    scanSym [':', '='] = [[':', '=']] ∧
    ∃ s, matchSym symbols [':'] = some s ∧ s.isPrefixOf [':'] = true ∧
      ([':'] : List Char).length ≤ s.length := by
  refine ⟨C3_longest_symbol_match.1 [], ?_,
    C3_longest_symbol_match.2.2 [':'] [':'] (by decide) (by decide)⟩
  have h2 := C3_longest_symbol_match.2.1 []
  rw [h2]
  simp [scanSym]

/-- C4: after `x : integer ;`, the assignment `x := 5 ;` validates and
`x := 5.5 ;` fails; in general the integer type-compatibility check succeeds
exactly when the literal contains no decimal point. -/
theorem C4_integer_literal_check :
    hlValid [("x : integer ;").toList, ("x := 5 ;").toList] = true ∧
    hlValid [("x : integer ;").toList, ("x := 5.5 ;").toList] = false ∧
    (∀ value : List Char, typeOk kwInteger value = !(value.contains '.')) := by
  have h1 : (kwInteger == kwInteger) = true := by decide
  have h2 : (kwInteger == kwDouble) = false := by decide
  refine ⟨by decide, by decide, ?_⟩
  intro value
  cases hc : value.contains '.' with
  | false =>
    have hc' : '.' ∉ value := by simpa using hc
    simp [typeOk, hc, hc', h1, h2]
  | true =>
    have hc' : '.' ∈ value := by simpa using hc
    simp [typeOk, hc, hc', h1, h2]

/-- C5: an output statement whose trimmed content is a double-quoted literal
is accepted for every symbol table; an output statement whose content is a
bare identifier (letter followed by letters/digits, not a reserved word) is
accepted exactly when that identifier is a key of the symbol table. -/
theorem C5_output_content_check :
    (∀ (sym : SymTab) (content : List Char), isQuoted (stripList content) = true →
      outputOk sym content = true) ∧
    (∀ (sym : SymTab) (name : List Char), identShaped name = true →
      reservedWords.contains name = false →
      (outputOk sym name = true ↔ (List.lookup name sym).isSome = true)) := by
  constructor
  · intro sym content h
    simp [outputOk, h]
  · intro sym name hid hres
    have hall : ∀ x ∈ name, alnumChar x = true := identShaped_all_alnum hid
    have hstrip : stripList name = name :=
      stripList_of_all (fun x hx => alnumChar_not_space (hall x hx))
    have hq : isQuoted name = false := by
      cases name with
      | nil => exact absurd hid (by simp [identShaped])
      | cons c rest =>
        have hc : letterChar c = true := by
          simp only [identShaped, Bool.and_eq_true] at hid
          exact hid.1
        have hcq : c ≠ '"' := by
          intro hcq
          rw [hcq] at hc
          exact absurd hc (by decide)
        simp [isQuoted, hcq]
    have hres' : ¬ name ∈ reservedWords := by simpa using hres
    simp [outputOk, hstrip, hq, checkExprVars, findIdents_ident hid, hres']

/-- C5 witness: a quoted literal is accepted with an empty table, and a
declared bare identifier is accepted. -/
theorem C5_witness :
    outputOk [] (("\"hello\"").toList) = true ∧
    outputOk [(['x'], kwInteger)] ['x'] = true := by
  constructor
  · exact C5_output_content_check.1 [] (("\"hello\"").toList) (by decide)
  · exact (C5_output_content_check.2 [(['x'], kwInteger)] ['x']
      (by decide) (by decide)).mpr (by decide)

/-- C6: whatever the current symbol table, a declaration line whose captured
name is already a key of the table makes the validation run return false
immediately, regardless of either declaration's type. -/
theorem C6_redeclaration_fails (raw : Lines) (sym : SymTab) (i : Nat)
    (line : List Char) (rest : Lines) (name ty : List Char)
    (hdecl : matchDecl line = some (name, ty))
    (hmem : (List.lookup name sym).isSome = true) :
    validLoop raw sym i (line :: rest) = (false, sym) := by
  rw [validLoop_cons]
  simp [hdecl, hmem]

/-- C6 witness: re-declaring `x` (earlier `integer`, now `double`) fails. -/
theorem C6_witness :
    validLoop [] [(['x'], kwInteger)] 0 [("x : double ;").toList] =
      (false, [(['x'], kwInteger)]) :=
  C6_redeclaration_fails [] [(['x'], kwInteger)] 0 (("x : double ;").toList) []
    ['x'] kwDouble (by decide) (by decide)

/-- C7: a conditional line (matching no other shape, with its condition's
variables declared) that is the final line of the filtered sequence makes
validation fail. -/
theorem C7_conditional_missing_body (raw : Lines) (sym : SymTab) (i : Nat)
    (line cond : List Char)
    (h1 : matchDecl line = none) (h2 : matchAssign line = none)
    (h3 : matchOutput line = none) (h4 : matchIf line = some cond)
    (h5 : checkExprVars sym cond = true) :
    validLoop raw sym i [line] = (false, sym) := by
  rw [validLoop_cons]
  simp [h1, h2, h3, h4, h5]

/-- C7 witness: `If(x<5)` as the last line fails although `x` is declared. -/
theorem C7_witness :
    validLoop [] [(['x'], kwInteger)] 0 [("If(x<5)").toList] =
      (false, [(['x'], kwInteger)]) :=
  C7_conditional_missing_body [] [(['x'], kwInteger)] 0 (("If(x<5)").toList)
    (("x<5").toList) (by decide) (by decide) (by decide) (by decide) (by decide)

/-- C8: the validation loop finishes within one pass over the line sequence:
with a fuel budget of one iteration per remaining line the instrumented loop
never exhausts its fuel and computes the same result, in particular with fuel
equal to the filtered source length. -/
theorem C8_one_pass_bound :
    (∀ (fuel : Nat) (rest raw : Lines) (sym : SymTab) (i : Nat),
      rest.length ≤ fuel →
      validFuel raw fuel sym i rest = some (validLoop raw sym i rest)) ∧
    (∀ raw : Lines,
      validFuel raw (filteredOf raw).length [] 0 (filteredOf raw) =
        some (validLoop raw [] 0 (filteredOf raw))) :=
  ⟨validFuel_complete,
   fun raw => validFuel_complete (filteredOf raw).length (filteredOf raw) raw [] 0
     (Nat.le_refl _)⟩

/-- C8 witness: a two-line program is fully validated with fuel 2. -/
theorem C8_witness :
    validFuel [] 2 [] 0 [("x:integer;").toList, ("x:=5;").toList] =
      some (validLoop [] [] 0 [("x:integer;").toList, ("x:=5;").toList]) :=
  C8_one_pass_bound.1 2 [("x:integer;").toList, ("x:=5;").toList] [] [] 0
    (by decide)

/-- C9: over any run of the validation loop the symbol table only grows: the
final table is the initial one with some list of new entries stacked in
front, and every binding present at the start is still looked up with its
original type at the end (entries are never removed or overwritten). -/
theorem C9_symbol_table_monotone (raw : Lines) (sym : SymTab) (i : Nat)
    (rest : Lines) :
    (∃ added, (validLoop raw sym i rest).2 = added ++ sym) ∧
    (∀ name v, List.lookup name sym = some v →
      List.lookup name (validLoop raw sym i rest).2 = some v) :=
  validLoop_table_ext rest.length rest raw sym i (Nat.le_refl _)

/-- C9 witness: after running a declaration of `y`, the earlier binding of
`x` is still looked up with its original type. -/
theorem C9_witness :
    List.lookup (['x'] : List Char)
      (validLoop [] [(['x'], kwInteger)] 0 [("y : double ;").toList]).2 =
      some kwInteger :=
  (C9_symbol_table_monotone [] [(['x'], kwInteger)] 0
    [("y : double ;").toList]).2 ['x'] kwInteger (by decide)

/-- C10: the declaration shape accepts an underscore identifier `x_y`, but the
variable-reference extraction (no underscore in its class) splits `x_y` into
`x` and `y`, so a program declaring `x_y` and then outputting it fails
validation. -/
theorem C10_underscore_identifier_split :
    matchDecl (("x_y : integer ;").toList) = some ((("x_y").toList), kwInteger) ∧
    findIdents (("x_y").toList) = [['x'], ['y']] ∧
    hlValid [("x_y : integer ;").toList, ("output << x_y ;").toList] = false := by
  decide
